import Mathlib

/-!
# Preimage oracle server (`server/main.go`)

A shallow embedding of the hint handler, the preimage getter, the bootstrap
store and the two request loops of `server/main.go`, together with models of
the library functions they call (`strings.Split`, `hex.DecodeString`,
`binary.BigEndian.AppendUint64`, `crypto.Keccak256`, `kvstore.MemKV`,
`preimage.LocalIndexKey`, `preimage.Keccak256Key`, `errors.Is`).

Go values are represented as follows.

* `byte`            : `Fin 256`
* `string`, `[]byte`: `List Byte` (a Go string is a byte sequence)
* `[32]byte`        : lists of bytes of length 32
* `uint64`          : `Nat`, reduced modulo `2 ^ 64` where the source can overflow
* `error`           : `Option GoError`, with `none` for `nil`
* the captured variable `kv` of the closures becomes an explicit argument, and
  a closure that writes to it returns the new store.
-/

/-- A Go `byte`. -/
abbrev Byte := Fin 256

/-- A Go `string` or `[]byte`: a finite sequence of bytes. -/
abbrev GoString := List Byte

/-- The bytes of a string literal of the source (its UTF-8 encoding). -/
def goString (lit : String) : GoString :=
  lit.toUTF8.data.toList.map fun c => c.val

/-- A Go `[32]byte` (`common.Hash`, and the key type of the store). -/
abbrev Hash := { l : List Byte // l.length = 32 }

/-! ## Errors -/

/-- Go error values as far as the server distinguishes them: the sentinel
errors are compared by identity, `wrap` is an error with an `Unwrap` method
(`fmt.Errorf` with `%w`, `*fs.PathError`), `other` is any other leaf error. -/
inductive GoError where
  | EOF
  | ErrUnexpectedEOF
  | ErrClosed
  | ErrNotFound
  | ErrLength
  | InvalidByteError (c : Byte)
  | other (msg : String)
  | wrap (msg : String) (inner : GoError)
  deriving DecidableEq, Repr

namespace errors

/-- Go `errors.Is(err, target)`: walks the `Unwrap` chain of `err` and
compares every link with `target`. -/
def Is : GoError → GoError → Bool
  | .wrap msg inner, target =>
    if GoError.wrap msg inner = target then true else Is inner target
  | err, target => decide (err = target)

end errors

/-! ## `encoding/binary`, `encoding/hex`, `strings` -/

namespace binary

/-- Go `binary.BigEndian.AppendUint64(b, v)`: appends the eight bytes
`byte(v >> 56), ..., byte(v)`. -/
def AppendUint64 (b : List Byte) (v : Nat) : List Byte :=
  b ++ [Fin.ofNat (v >>> 56), Fin.ofNat (v >>> 48), Fin.ofNat (v >>> 40), Fin.ofNat (v >>> 32),
        Fin.ofNat (v >>> 24), Fin.ofNat (v >>> 16), Fin.ofNat (v >>> 8), Fin.ofNat v]

end binary

namespace hex

/-- Go `reverseHexTable` of `encoding/hex`: the value of a hex digit, and
`0xff` for every other byte. -/
def reverseHexTable (c : Byte) : Nat :=
  if 0x30 ≤ c.val ∧ c.val ≤ 0x39 then c.val - 0x30
  else if 0x61 ≤ c.val ∧ c.val ≤ 0x66 then c.val - 0x61 + 10
  else if 0x41 ≤ c.val ∧ c.val ≤ 0x46 then c.val - 0x41 + 10
  else 0xff

/-- Go `hex.Decode` as called by `hex.DecodeString`: decodes pairs of hex
digits from the left; returns the bytes decoded so far and the first error
(`InvalidByteError` for a byte that is no hex digit, `ErrLength` for an odd
length). -/
def DecodeString : GoString → List Byte × Option GoError
  | [] => ([], none)
  | [p] =>
    if reverseHexTable p > 0x0f then ([], some (.InvalidByteError p))
    else ([], some .ErrLength)
  | p :: q :: rest =>
    if reverseHexTable p > 0x0f then ([], some (.InvalidByteError p))
    else if reverseHexTable q > 0x0f then ([], some (.InvalidByteError q))
    else
      let r := DecodeString rest
      (Fin.ofNat (reverseHexTable p <<< 4 ||| reverseHexTable q) :: r.1, r.2)

/-- Go `hextable`: the lower-case digit of a nibble. -/
def hextable (n : Nat) : Byte :=
  if n < 10 then Fin.ofNat (0x30 + n) else Fin.ofNat (0x61 + (n - 10))

/-- Go `hex.EncodeToString`: two lower-case hex digits per byte. -/
def EncodeToString : List Byte → GoString
  | [] => []
  | v :: rest => hextable (v.val >>> 4) :: hextable (v.val &&& 0x0f) :: EncodeToString rest

end hex

namespace strings

/-- Go `strings.Split(s, sep)` for a separator of one byte: the substrings of
`s` between the occurrences of `sep`, one more than there are occurrences. -/
def Split (sep : Byte) : GoString → List GoString
  | [] => [[]]
  | c :: cs =>
    if c = sep then [] :: Split sep cs
    else
      match Split sep cs with
      | [] => [[c]]
      | p :: ps => (c :: p) :: ps

/-- Go `strings.ToUpper` on ASCII: the letters `a`..`z` become `A`..`Z`. -/
def ToUpper (s : GoString) : GoString :=
  s.map fun c => if 0x61 ≤ c.val ∧ c.val ≤ 0x7a then Fin.ofNat (c.val - 0x20) else c

end strings

/-! ## Keccak-256 (`crypto.Keccak256`) -/

namespace Keccak

/-- Rotation of a 64-bit lane to the left. -/
def rotl64 (x n : Nat) : Nat := ((x <<< n) ||| (x >>> (64 - n))) % 2 ^ 64

/-- The 24 round constants of Keccak-f[1600]. -/
def roundConstants : List Nat :=
  [0x0000000000000001, 0x0000000000008082, 0x800000000000808A, 0x8000000080008000,
   0x000000000000808B, 0x0000000080000001, 0x8000000080008081, 0x8000000000008009,
   0x000000000000008A, 0x0000000000000088, 0x0000000080008009, 0x000000008000000A,
   0x000000008000808B, 0x800000000000008B, 0x8000000000008089, 0x8000000000008003,
   0x8000000000008002, 0x8000000000000080, 0x000000000000800A, 0x800000008000000A,
   0x8000000080008081, 0x8000000000008080, 0x0000000080000001, 0x8000000080008008]

/-- The rotation offsets of the step rho, for the lane at index `x + 5 * y`. -/
def rotationOffsets : List Nat :=
  [0, 1, 62, 28, 27, 36, 44, 6, 55, 20, 3, 10, 43, 25, 39, 41, 45, 15, 21, 8, 18, 2, 61, 56, 14]

/-- The lane `(x, y)` of a state of 25 lanes, coordinates taken modulo 5. -/
def lane (A : List Nat) (x y : Nat) : Nat := A.getD (x % 5 + 5 * (y % 5)) 0

/-- Step theta: every lane is xored with the parities of two columns. -/
def theta (A : List Nat) : List Nat :=
  let C := (List.range 5).map fun x =>
    lane A x 0 ^^^ lane A x 1 ^^^ lane A x 2 ^^^ lane A x 3 ^^^ lane A x 4
  let D := (List.range 5).map fun x =>
    C.getD ((x + 4) % 5) 0 ^^^ rotl64 (C.getD ((x + 1) % 5) 0) 1
  (List.range 25).map fun i => A.getD i 0 ^^^ D.getD (i % 5) 0

/-- Steps rho and pi: the lane `(x, y)` is rotated and moved to `(y, 2x + 3y)`;
the lane at index `i` of the result comes from `x = i % 5 + 3 * (i / 5)`,
`y = i % 5`. -/
def rhoPi (A : List Nat) : List Nat :=
  (List.range 25).map fun i =>
    let x := (i % 5 + 3 * (i / 5)) % 5
    let y := i % 5
    rotl64 (lane A x y) (rotationOffsets.getD (x + 5 * y) 0)

/-- Step chi: the nonlinear step along the rows. -/
def chi (B : List Nat) : List Nat :=
  (List.range 25).map fun i =>
    lane B i (i / 5) ^^^ ((lane B (i + 1) (i / 5) ^^^ (2 ^ 64 - 1)) &&& lane B (i + 2) (i / 5))

/-- Step iota: the round constant is xored into lane `(0, 0)`. -/
def iota (rc : Nat) : List Nat → List Nat
  | [] => []
  | l :: A => (l ^^^ rc) :: A

/-- One round of Keccak-f[1600]. -/
def round (A : List Nat) (rc : Nat) : List Nat := iota rc (chi (rhoPi (theta A)))

/-- The permutation Keccak-f[1600]. -/
def keccakF (A : List Nat) : List Nat := roundConstants.foldl round A

/-- A lane from its bytes, least significant byte first. -/
def laneOfBytes : List Byte → Nat
  | [] => 0
  | c :: cs => c.val + 256 * laneOfBytes cs

/-- The first `n` lanes of a block of bytes. -/
def lanesOfBlock : Nat → List Byte → List Nat
  | 0, _ => []
  | n + 1, bs => laneOfBytes (bs.take 8) :: lanesOfBlock n (bs.drop 8)

/-- The rate of Keccak-256 in bytes. -/
def rate : Nat := 136

/-- Keccak padding (pad10*1 without domain bits) to a multiple of the rate. -/
def pad (msg : List Byte) : List Byte :=
  let q := rate - msg.length % rate
  if q = 1 then msg ++ [0x81]
  else msg ++ [0x01] ++ List.replicate (q - 2) 0 ++ [0x80]

/-- Xor of a block of lanes into the front of the state. -/
def xorLanes : List Nat → List Nat → List Nat
  | l :: A, r :: B => (l ^^^ r) :: xorLanes A B
  | A, [] => A
  | [], _ => []

/-- Absorption of at most `n` blocks of the padded message. -/
def absorb : Nat → List Nat → List Byte → List Nat
  | 0, A, _ => A
  | n + 1, A, bs =>
    if bs = [] then A
    else absorb n (keccakF (xorLanes A (lanesOfBlock 17 (bs.take rate)))) (bs.drop rate)

/-- The eight bytes of a lane, least significant byte first. -/
def bytesOfLane (w : Nat) : List Byte :=
  [Fin.ofNat w, Fin.ofNat (w >>> 8), Fin.ofNat (w >>> 16), Fin.ofNat (w >>> 24),
   Fin.ofNat (w >>> 32), Fin.ofNat (w >>> 40), Fin.ofNat (w >>> 48), Fin.ofNat (w >>> 56)]

/-- The digest: the first four lanes of the state. -/
def squeeze (A : List Nat) : List Byte :=
  bytesOfLane (A.getD 0 0) ++ bytesOfLane (A.getD 1 0) ++
    bytesOfLane (A.getD 2 0) ++ bytesOfLane (A.getD 3 0)

end Keccak

namespace crypto

/-- Go `crypto.Keccak256(data)`: the 32 bytes of the Keccak-256 digest. -/
def Keccak256 (data : List Byte) : List Byte :=
  Keccak.squeeze
    (Keccak.absorb ((Keccak.pad data).length / Keccak.rate) (List.replicate 25 0) (Keccak.pad data))

/-- Go `crypto.Keccak256Hash(data)`: the digest as a `common.Hash`. -/
def Keccak256Hash (data : List Byte) : Hash := ⟨Keccak256 data, rfl⟩

end crypto

/-! ## `op-preimage`: keys and the in-memory store -/

namespace preimage

/-- Modelled from the spec: `preimage.LocalIndexKey(i).PreimageKey()` of the
op-preimage library, not part of the repository. The key is
`0x01 || zeroes || i`, the index big-endian in the last eight bytes. -/
def LocalIndexKey (i : Nat) : Hash :=
  ⟨binary.AppendUint64 (1 :: List.replicate 23 0) i, rfl⟩

/-- Modelled from the spec: `preimage.Keccak256Key(h).PreimageKey()` of the
op-preimage library, not part of the repository. The key is `0x02 || h[1:]`:
the type byte replaces byte 0 of the hash. -/
def Keccak256Key (h : Hash) : Hash :=
  ⟨h.val.set 0 2, by rw [List.length_set]; exact h.property⟩

end preimage

namespace kvstore

/-- Modelled from the spec: `kvstore.MemKV` of the op-preimage library, not
part of the repository: a map from 32-byte keys to values. -/
structure MemKV where
  /-- The Go map `m map[common.Hash][]byte`. -/
  m : Hash → Option (List Byte)

/-- Modelled from the spec: `kvstore.NewMemKV()`, the empty store. -/
def NewMemKV : MemKV := ⟨fun _ => none⟩

/-- Modelled from the spec: `(*MemKV).Put(k, v)`: inserts or overwrites; its
error result is always `nil` and every call site of the server discards it. -/
def MemKV.Put (kv : MemKV) (k : Hash) (v : List Byte) : MemKV :=
  ⟨fun j => if j = k then some v else kv.m j⟩

/-- Modelled from the spec: `(*MemKV).Get(k)`: the value, or `ErrNotFound`
when the key is absent. -/
def MemKV.Get (kv : MemKV) (k : Hash) : Except GoError (List Byte) :=
  match kv.m k with
  | some v => .ok v
  | none => .error .ErrNotFound

end kvstore

open kvstore preimage crypto

/-! ## `server/main.go` -/

/-- Source `encodeU64`: the 8-byte big-endian encoding of a `uint64`. -/
def encodeU64 (x : Nat) : List Byte := binary.AppendUint64 [] x

namespace server

/-- Source `s := uint64(1000)`. -/
def s : Nat := 1000

/-- Source `a := uint64(3)`. -/
def a : Nat := 3

/-- Source `b := uint64(4)`. -/
def b : Nat := 4

/-- Source `diff`: `keccak256(encodeU64(a)) || keccak256(encodeU64(b))`. -/
def diff : List Byte := ([] ++ Keccak256 (encodeU64 a)) ++ Keccak256 (encodeU64 b)

/-- Source `preHash := crypto.Keccak256Hash(encodeU64(s))`. -/
def preHash : Hash := Keccak256Hash (encodeU64 s)

/-- Source `diffHash := crypto.Keccak256Hash(diff)`. -/
def diffHash : Hash := Keccak256Hash diff

/-- The store `kv` after the three bootstrap `Put` calls (lines 60-76); the
sum `s*a+b` is a `uint64`. -/
def bootstrap : MemKV :=
  ((NewMemKV.Put (LocalIndexKey 0) preHash.val).Put (LocalIndexKey 1) diffHash.val).Put
    (LocalIndexKey 2) (encodeU64 ((s * a + b) % 2 ^ 64))

/-- Source closure `getPreimage`: a read of the store. -/
def getPreimage (kv : MemKV) (key : Hash) : Except GoError (List Byte) := kv.Get key

/-- Source closure `hinter`: the store after the call and the returned error. -/
def hinter (kv : MemKV) (hint : GoString) : MemKV × Option GoError :=
  match strings.Split 0x20 hint with
  | [verb, arg] =>
    let r := hex.DecodeString arg
    if hp : r.2 ≠ none ∨ r.1.length ≠ 32 then (kv, none)
    else
      let h : Hash := ⟨r.1, by
        by_contra hne
        exact hp (Or.inr hne)⟩
      if verb = goString "fetch-state" then
        if h = preHash then
          (kv.Put (Keccak256Key preHash) (encodeU64 s), none)
        else (kv, none)
      else if verb = goString "fetch-diff" then
        if h = diffHash then
          (((kv.Put (Keccak256Key diffHash) diff).Put
              (Keccak256Key (Keccak256Hash (encodeU64 a))) (encodeU64 a)).Put
              (Keccak256Key (Keccak256Hash (encodeU64 b))) (encodeU64 b), none)
        else (kv, none)
      else (kv, none)
  | _ => (kv, none)

/-- The store reached from `kv` by handling the hints of a list in order. -/
def processHints (kv : MemKV) (hints : List GoString) : MemKV :=
  hints.foldl (fun st hint => (hinter st hint).1) kv

end server

/-- The loops of `routeHints` and `handlePreimageRequests`: what the loop
has done to its completion channel. -/
inductive LoopExit where
  /-- The loop has not returned (still calling the step function). -/
  | running
  /-- Source `return` after a clean closure: `chErr` is closed with nothing sent. -/
  | closed
  /-- Source `chErr <- err; return`: `err` is sent, then `chErr` is closed. -/
  | sent (err : GoError)
  deriving DecidableEq, Repr

/-- What `err := <-chErr` yields in `server` once the loop has returned. -/
def LoopExit.recv : LoopExit → Option (Option GoError)
  | .running => none
  | .closed => some none
  | .sent err => some (some err)

/-- Source `routeHints`: the loop around `hintReader.NextHint(hinter)`. The
call is a state transformer `NextHint` on the state `σ` of the channel and the
store; `fuel` bounds the number of iterations. -/
def routeHints {σ : Type} (NextHint : σ → σ × Option GoError) : Nat → σ → σ × LoopExit
  | 0, st => (st, .running)
  | fuel + 1, st =>
    match NextHint st with
    | (st1, none) => routeHints NextHint fuel st1
    | (st1, some err) =>
      if err = GoError.EOF || errors.Is err GoError.ErrClosed then (st1, .closed)
      else (st1, .sent err)

/-- Source `handlePreimageRequests`: the loop around
`server.NextPreimageRequest(getter)`, modelled as `routeHints` is. -/
def handlePreimageRequests {σ : Type} (NextPreimageRequest : σ → σ × Option GoError) :
    Nat → σ → σ × LoopExit
  | 0, st => (st, .running)
  | fuel + 1, st =>
    match NextPreimageRequest st with
    | (st1, none) => handlePreimageRequests NextPreimageRequest fuel st1
    | (st1, some err) =>
      if err = GoError.EOF || errors.Is err GoError.ErrClosed then (st1, .closed)
      else (st1, .sent err)

/-- The state after `n` successful steps, if the first `n` steps succeed. -/
def afterSuccesses {σ : Type} (step : σ → σ × Option GoError) : Nat → σ → Option σ
  | 0, st => some st
  | n + 1, st =>
    match step st with
    | (st1, none) => afterSuccesses step n st1
    | (_, some _) => none

/-! ## Vocabulary of the specification -/

/-- A hex digit: `0`-`9`, `a`-`f` or `A`-`F`. -/
def IsHexDigit (c : Byte) : Prop :=
  (0x30 ≤ c.val ∧ c.val ≤ 0x39) ∨ (0x61 ≤ c.val ∧ c.val ≤ 0x66) ∨ (0x41 ≤ c.val ∧ c.val ≤ 0x46)

instance IsHexDigit.instDecidable (c : Byte) : Decidable (IsHexDigit c) := by
  unfold IsHexDigit
  infer_instance

/-- Valid hex: an even number of hex digits. -/
def IsHexString (t : GoString) : Prop :=
  t.length % 2 = 0 ∧ ∀ c ∈ t, IsHexDigit c

instance IsHexString.instDecidable (t : GoString) : Decidable (IsHexString t) := by
  unfold IsHexString
  infer_instance

/-- A malformed hint: splitting on the space does not give exactly two
tokens, or the second token is not valid hex, or it decodes to a byte string
whose length is not 32. -/
def Malformed (hint : GoString) : Prop :=
  (strings.Split 0x20 hint).length ≠ 2 ∨
  ¬ IsHexString ((strings.Split 0x20 hint).getD 1 []) ∨
  (hex.DecodeString ((strings.Split 0x20 hint).getD 1 [])).1.length ≠ 32

instance Malformed.instDecidable (hint : GoString) : Decidable (Malformed hint) := by
  unfold Malformed
  infer_instance

/-- The letters `A`-`F` in lower case, every other byte unchanged. -/
def lowerHexLetter (c : Byte) : Byte :=
  if 0x41 ≤ c.val ∧ c.val ≤ 0x46 then Fin.ofNat (c.val + 0x20) else c

/-- Two strings differ only in the case of the letters `a`-`f`. -/
def SameUpToHexCase (x y : GoString) : Prop :=
  x.map lowerHexLetter = y.map lowerHexLetter

instance SameUpToHexCase.instDecidable (x y : GoString) : Decidable (SameUpToHexCase x y) := by
  unfold SameUpToHexCase
  infer_instance

/-- A well-formed hint `<verb> <64 hex chars>` is not recognised: the verb is
neither `fetch-state` nor `fetch-diff`, or it is `fetch-state` and the decoded
hash is not `preHash`, or it is `fetch-diff` and the decoded hash is not
`diffHash`. -/
def Unrecognised (verb arg : GoString) : Prop :=
  (verb ≠ goString "fetch-state" ∧ verb ≠ goString "fetch-diff") ∨
  (verb = goString "fetch-state" ∧ (hex.DecodeString arg).1 ≠ server.preHash.val) ∨
  (verb = goString "fetch-diff" ∧ (hex.DecodeString arg).1 ≠ server.diffHash.val)

instance Unrecognised.instDecidable (verb arg : GoString) : Decidable (Unrecognised verb arg) := by
  unfold Unrecognised
  infer_instance

/-- The handler inserts the key `k` when it handles `hint`: the key is present
after the handler has run on the empty store. -/
def InsertedBy (hint : GoString) (k : Hash) : Prop :=
  ((server.hinter NewMemKV hint).1.m k).isSome = true

instance InsertedBy.instDecidable (hint : GoString) (k : Hash) : Decidable (InsertedBy hint k) := by
  unfold InsertedBy
  infer_instance

/-- For a keccak-typed key (first byte `0x02`) of the store, the stored value
hashes to the key: the key is `Keccak256Key(keccak256(v))`. -/
def KeccakConsistent (kv : MemKV) : Prop :=
  ∀ (k : Hash) (v : List Byte), kv.m k = some v → k.val.head? = some 2 →
    k = Keccak256Key (Keccak256Hash v)

/-- The values under the four keccak keys of the handler are, where present,
the ones the handler derives for them. -/
def DerivedValues (kv : MemKV) : Prop :=
  ∀ (k : Hash) (v : List Byte), kv.m k = some v →
    (k = Keccak256Key server.preHash → v = encodeU64 server.s) ∧
    (k = Keccak256Key server.diffHash → v = server.diff) ∧
    (k = Keccak256Key (Keccak256Hash (encodeU64 server.a)) → v = encodeU64 server.a) ∧
    (k = Keccak256Key (Keccak256Hash (encodeU64 server.b)) → v = encodeU64 server.b)

/-- A step function for the loops that succeeds twice and then fails with the
error of a store miss, as `NextPreimageRequest` wraps it. -/
def missAfterTwo (st : Nat) : Nat × Option GoError :=
  if st < 2 then (st + 1, none)
  else (st + 1, some (GoError.wrap "failed to serve pre-image request" GoError.ErrNotFound))

/-! ## Test vectors and the hashes of the session -/

/-- Keccak-256 of the empty string, the well-known test vector. -/
theorem Keccak256_empty : Keccak256 [] =
    [0xc5, 0xd2, 0x46, 0x01, 0x86, 0xf7, 0x23, 0x3c, 0x92, 0x7e, 0x7d, 0xb2, 0xdc, 0xc7, 0x03, 0xc0,
     0xe5, 0x00, 0xb6, 0x53, 0xca, 0x82, 0x27, 0x3b, 0x7b, 0xfa, 0xd8, 0x04, 0x5d, 0x85, 0xa4, 0x70] := by
  decide!

/-- Keccak-256 of `abc`. -/
theorem Keccak256_abc : Keccak256 (goString "abc") =
    [0x4e, 0x03, 0x65, 0x7a, 0xea, 0x45, 0xa9, 0x4f, 0xc7, 0xd4, 0x7b, 0xa8, 0x26, 0xc8, 0xd6, 0x67,
     0xc0, 0xd1, 0xe6, 0xe3, 0x3a, 0x64, 0xa0, 0x36, 0xec, 0x44, 0xf5, 0x8f, 0xa1, 0x2d, 0x6c, 0x45] := by
  decide!

/-- The bytes of `preHash`. -/
theorem preHash_val : server.preHash.val =
    [0xf4, 0x79, 0xa7, 0xbd, 0x38, 0x19, 0xaa, 0x63, 0xbb, 0xe4, 0x76, 0x77, 0x7c, 0x50, 0x9f, 0xd5,
     0x9e, 0x62, 0x6f, 0xac, 0x3d, 0x37, 0x22, 0x15, 0x09, 0xba, 0x4f, 0xd4, 0x1b, 0x14, 0x59, 0xb6] := by
  decide!

/-! ## The store -/

theorem MemKV.ext_m {kv1 kv2 : MemKV} (h : ∀ k, kv1.m k = kv2.m k) : kv1 = kv2 := by
  cases kv1
  cases kv2
  congr
  exact funext h

theorem MemKV.Put_m_self (kv : MemKV) (k : Hash) (v : List Byte) : (kv.Put k v).m k = some v := by
  simp [MemKV.Put]

theorem MemKV.Put_m_ne (kv : MemKV) {j k : Hash} (v : List Byte) (h : j ≠ k) :
    (kv.Put k v).m j = kv.m j := by
  simp [MemKV.Put, h]

theorem MemKV.Put_m (kv : MemKV) (j k : Hash) (v : List Byte) :
    (kv.Put k v).m j = if j = k then some v else kv.m j := rfl

/-! ## `hex.DecodeString` -/

theorem reverseHexTable_gt_iff (c : Byte) : hex.reverseHexTable c > 0x0f ↔ ¬ IsHexDigit c := by
  unfold hex.reverseHexTable IsHexDigit
  split_ifs <;> omega

theorem DecodeString_ok_iff : ∀ t : GoString, (hex.DecodeString t).2 = none ↔ IsHexString t
  | [] => by simp [hex.DecodeString, IsHexString]
  | [p] => by
    unfold hex.DecodeString
    split_ifs <;> simp [IsHexString]
  | p :: q :: rest => by
    have ih := DecodeString_ok_iff rest
    unfold hex.DecodeString
    have hp := reverseHexTable_gt_iff p
    have hq := reverseHexTable_gt_iff q
    by_cases h1 : hex.reverseHexTable p > 0x0f
    · simp only [h1, if_true]
      simp [IsHexString, hp.mp h1]
    · by_cases h2 : hex.reverseHexTable q > 0x0f
      · simp only [h1, h2, if_true, if_false]
        simp [IsHexString, hq.mp h2]
      · simp only [h1, h2, if_false]
        have h1d : IsHexDigit p := by
          by_contra hc
          exact h1 (hp.mpr hc)
        have h2d : IsHexDigit q := by
          by_contra hc
          exact h2 (hq.mpr hc)
        rw [ih]
        simp only [IsHexString, List.length_cons, List.mem_cons, forall_eq_or_imp, h1d, h2d,
          true_and]
        constructor
        · rintro ⟨hl, hd⟩
          exact ⟨by omega, hd⟩
        · rintro ⟨hl, hd⟩
          exact ⟨by omega, hd⟩

/-! ## The hint handler: its three behaviours -/

/-- For every hint the handler does one of three things, whatever the store:
nothing, the `Put` of `fetch-state`, or the three `Put`s of `fetch-diff`; it
returns `nil` in each case. -/
theorem hinter_cases (hint : GoString) :
    (∀ kv, server.hinter kv hint = (kv, none)) ∨
    (∀ kv, server.hinter kv hint =
      (kv.Put (Keccak256Key server.preHash) (encodeU64 server.s), none)) ∨
    (∀ kv, server.hinter kv hint =
      (((kv.Put (Keccak256Key server.diffHash) server.diff).Put
          (Keccak256Key (Keccak256Hash (encodeU64 server.a))) (encodeU64 server.a)).Put
          (Keccak256Key (Keccak256Hash (encodeU64 server.b))) (encodeU64 server.b), none)) := by
  unfold server.hinter
  split
  · dsimp only
    split_ifs
    · exact Or.inl fun _ => rfl
    · exact Or.inr (Or.inl fun _ => rfl)
    · exact Or.inl fun _ => rfl
    · exact Or.inr (Or.inr fun _ => rfl)
    · exact Or.inl fun _ => rfl
    · exact Or.inl fun _ => rfl
  · exact Or.inl fun _ => rfl

/-! ## `strings.Split` -/

theorem Split_ne_nil (sep : Byte) (t : GoString) : strings.Split sep t ≠ [] := by
  cases t with
  | nil => simp [strings.Split]
  | cons c cs =>
    unfold strings.Split
    split_ifs
    · simp
    · split <;> simp

theorem Split_of_not_mem (sep : Byte) (t : GoString) (h : sep ∉ t) : strings.Split sep t = [t] := by
  induction t with
  | nil => rfl
  | cons c cs ih =>
    have hc : c ≠ sep := fun e => h (by simp [e])
    have hcs : sep ∉ cs := fun e => h (by simp [e])
    unfold strings.Split
    rw [if_neg hc, ih hcs]

theorem Split_cons (sep c : Byte) (cs : GoString) :
    strings.Split sep (c :: cs) =
      if c = sep then [] :: strings.Split sep cs
      else
        match strings.Split sep cs with
        | [] => [[c]]
        | p :: ps => (c :: p) :: ps := by
  conv_lhs => unfold strings.Split

theorem Split_append (sep : Byte) (u w : GoString) :
    strings.Split sep (u ++ sep :: w) = strings.Split sep u ++ strings.Split sep w := by
  induction u with
  | nil =>
    rw [List.nil_append, Split_cons, if_pos rfl]
    rfl
  | cons c cs ih =>
    rw [List.cons_append, Split_cons sep c (cs ++ sep :: w), Split_cons sep c cs]
    by_cases hc : c = sep
    · rw [if_pos hc, if_pos hc, ih]
      rfl
    · rw [if_neg hc, if_neg hc, ih]
      cases hs : strings.Split sep cs with
      | nil => exact absurd hs (Split_ne_nil sep cs)
      | cons p ps => rfl

theorem Split_length_of_mem (sep : Byte) (t : GoString) (h : sep ∈ t) :
    2 ≤ (strings.Split sep t).length := by
  obtain ⟨u, w, rfl⟩ := List.append_of_mem h
  rw [Split_append, List.length_append]
  have h1 := List.length_pos.mpr (Split_ne_nil sep u)
  have h2 := List.length_pos.mpr (Split_ne_nil sep w)
  omega

theorem Split_two_tokens (verb arg : GoString) (hv : (0x20 : Byte) ∉ verb)
    (ha : (0x20 : Byte) ∉ arg) : strings.Split 0x20 (verb ++ 0x20 :: arg) = [verb, arg] := by
  rw [Split_append, Split_of_not_mem _ _ hv, Split_of_not_mem _ _ ha]
  rfl

theorem Split_length_of_mem_verb (verb arg : GoString) (hv : (0x20 : Byte) ∈ verb) :
    (strings.Split 0x20 (verb ++ 0x20 :: arg)).length ≠ 2 := by
  rw [Split_append, List.length_append]
  have h1 := Split_length_of_mem _ _ hv
  have h2 := List.length_pos.mpr (Split_ne_nil 0x20 arg)
  omega

theorem hinter_of_length_ne (kv : MemKV) (hint : GoString)
    (h : (strings.Split 0x20 hint).length ≠ 2) : server.hinter kv hint = (kv, none) := by
  unfold server.hinter
  split
  · rename_i verb arg heq
    rw [heq] at h
    exact absurd rfl h
  · rfl

theorem not_space_of_hex (t : GoString) (h : ∀ c ∈ t, IsHexDigit c) : (0x20 : Byte) ∉ t := by
  intro hm
  have := h _ hm
  revert this
  decide

theorem goString_space : goString " " = [0x20] := by decide!

theorem hinter_congr (kv : MemKV) (verb x y : GoString) (hx : (0x20 : Byte) ∉ x)
    (hy : (0x20 : Byte) ∉ y) (h : hex.DecodeString x = hex.DecodeString y) :
    server.hinter kv (verb ++ 0x20 :: x) = server.hinter kv (verb ++ 0x20 :: y) := by
  by_cases hv : (0x20 : Byte) ∈ verb
  · rw [hinter_of_length_ne _ _ (Split_length_of_mem_verb verb x hv),
      hinter_of_length_ne _ _ (Split_length_of_mem_verb verb y hv)]
  · unfold server.hinter
    rw [Split_two_tokens verb x hv hx, Split_two_tokens verb y hv hy]
    simp only [h]

/-! ## Case of hex letters, `hex.EncodeToString` -/

theorem lowerHexLetter_table (c : Byte) :
    hex.reverseHexTable (lowerHexLetter c) = hex.reverseHexTable c := by
  revert c
  decide!

theorem lowerHexLetter_invalid (c : Byte) (h : hex.reverseHexTable c > 0x0f) :
    lowerHexLetter c = c := by
  revert c
  decide!

theorem DecodeString_map_lower : ∀ t : GoString,
    hex.DecodeString (t.map lowerHexLetter) = hex.DecodeString t
  | [] => rfl
  | [p] => by
    simp only [List.map, hex.DecodeString, lowerHexLetter_table]
    split_ifs with h
    · rw [lowerHexLetter_invalid p h]
    · rfl
  | p :: q :: rest => by
    have ih := DecodeString_map_lower rest
    simp only [List.map, hex.DecodeString, lowerHexLetter_table, ih]
    split_ifs with h1 h2
    · rw [lowerHexLetter_invalid p h1]
    · rw [lowerHexLetter_invalid q h2]
    · rfl

theorem DecodeString_of_same_case (x y : GoString) (h : SameUpToHexCase x y) :
    hex.DecodeString x = hex.DecodeString y := by
  rw [← DecodeString_map_lower x, ← DecodeString_map_lower y]
  exact congrArg hex.DecodeString h

theorem hex_byte_lower (v : Byte) :
    hex.reverseHexTable (hex.hextable (v.val >>> 4)) ≤ 0x0f ∧
    hex.reverseHexTable (hex.hextable (v.val &&& 0x0f)) ≤ 0x0f ∧
    (Fin.ofNat (hex.reverseHexTable (hex.hextable (v.val >>> 4)) <<< 4 |||
      hex.reverseHexTable (hex.hextable (v.val &&& 0x0f))) : Byte) = v := by
  revert v
  decide!

theorem DecodeString_EncodeToString : ∀ bs : List Byte,
    hex.DecodeString (hex.EncodeToString bs) = (bs, none)
  | [] => rfl
  | v :: rest => by
    have ih := DecodeString_EncodeToString rest
    obtain ⟨h1, h2, h3⟩ := hex_byte_lower v
    simp only [hex.EncodeToString, hex.DecodeString]
    rw [if_neg (by omega), if_neg (by omega), ih, h3]

theorem ToUpper_same_case : ∀ bs : List Byte,
    SameUpToHexCase (strings.ToUpper (hex.EncodeToString bs)) (hex.EncodeToString bs) := by
  have key : ∀ n : Fin 16,
      lowerHexLetter (if 0x61 ≤ (hex.hextable n.val).val ∧ (hex.hextable n.val).val ≤ 0x7a
        then Fin.ofNat ((hex.hextable n.val).val - 0x20) else hex.hextable n.val) =
      lowerHexLetter (hex.hextable n.val) := by decide!
  have hi : ∀ v : Byte, v.val >>> 4 < 16 := by decide!
  have lo : ∀ v : Byte, v.val &&& 0x0f < 16 := by decide!
  intro bs
  induction bs with
  | nil => rfl
  | cons v rest ih =>
    unfold SameUpToHexCase at ih ⊢
    simp only [strings.ToUpper, hex.EncodeToString, List.map] at ih ⊢
    rw [ih]
    have k1 := key ⟨v.val >>> 4, hi v⟩
    have k2 := key ⟨v.val &&& 0x0f, lo v⟩
    simp only at k1 k2
    rw [k1, k2]

theorem EncodeToString_hex : ∀ (bs : List Byte), ∀ c ∈ hex.EncodeToString bs, IsHexDigit c := by
  have key : ∀ n : Fin 16, IsHexDigit (hex.hextable n.val) := by decide!
  have hi : ∀ v : Byte, v.val >>> 4 < 16 := by decide!
  have lo : ∀ v : Byte, v.val &&& 0x0f < 16 := by decide!
  intro bs
  induction bs with
  | nil => simp [hex.EncodeToString]
  | cons v rest ih =>
    intro c hc
    simp only [hex.EncodeToString, List.mem_cons] at hc
    rcases hc with rfl | rfl | hc
    · exact key ⟨v.val >>> 4, hi v⟩
    · exact key ⟨v.val &&& 0x0f, lo v⟩
    · exact ih c hc

theorem ToUpper_hex (t : GoString) (h : ∀ c ∈ t, IsHexDigit c) :
    ∀ c ∈ strings.ToUpper t, IsHexDigit c := by
  have key : ∀ c : Byte, IsHexDigit c →
      IsHexDigit (if 0x61 ≤ c.val ∧ c.val ≤ 0x7a then Fin.ofNat (c.val - 0x20) else c) := by
    decide!
  intro c hc
  simp only [strings.ToUpper, List.mem_map] at hc
  obtain ⟨d, hd, rfl⟩ := hc
  exact key d (h d hd)

/-! ## Keys -/

/-- The bytes of `diffHash`. -/
theorem diffHash_val : server.diffHash.val =
    [0x24, 0xde, 0xcc, 0x5b, 0xe5, 0xa9, 0xcc, 0xc7, 0x76, 0xfa, 0x27, 0x38, 0xbc, 0x15, 0xb7, 0xab,
     0xd3, 0xc3, 0x3c, 0xc7, 0xa5, 0xbc, 0xa6, 0xfe, 0x62, 0x20, 0x2f, 0x43, 0xb0, 0xbd, 0x17, 0x69] := by
  decide!

theorem hashA_val : (Keccak256Hash (encodeU64 server.a)).val =
    [0xd4, 0xc6, 0x9e, 0x49, 0xe8, 0x3a, 0x60, 0x47, 0xf4, 0x6e, 0x42, 0xb2, 0xd0, 0x53, 0xa1, 0xf0,
     0xc6, 0xe7, 0x0e, 0xa4, 0x28, 0x62, 0xe5, 0xef, 0x4a, 0xd6, 0x6b, 0x36, 0x66, 0xc5, 0xe2, 0xaf] := by
  decide!

theorem hashB_val : (Keccak256Hash (encodeU64 server.b)).val =
    [0xd2, 0xed, 0x8d, 0x75, 0xf8, 0x01, 0xae, 0x8a, 0x20, 0x6c, 0x07, 0xff, 0x9b, 0x10, 0x4f, 0x0e,
     0x00, 0x52, 0x38, 0xdc, 0xd1, 0xcb, 0xaf, 0x84, 0x4f, 0xd9, 0xf4, 0x0d, 0x63, 0x17, 0x4c, 0x56] := by
  decide!

theorem Keccak256Key_val (h : Hash) : (Keccak256Key h).val = h.val.set 0 2 := rfl

theorem Keccak256Key_head (h : Hash) : (Keccak256Key h).val.head? = some 2 := by
  obtain ⟨l, hl⟩ := h
  cases l with
  | nil => simp at hl
  | cons x xs => rfl

theorem LocalIndexKey_head (i : Nat) : (LocalIndexKey i).val.head? = some 1 := rfl

theorem LocalIndexKey_ne_Keccak256Key (i : Nat) (h : Hash) : LocalIndexKey i ≠ Keccak256Key h := by
  intro e
  have h1 := LocalIndexKey_head i
  rw [e, Keccak256Key_head] at h1
  exact absurd h1 (by decide)

theorem Keccak256Key_ne_LocalIndexKey (i : Nat) (h : Hash) : Keccak256Key h ≠ LocalIndexKey i :=
  fun e => LocalIndexKey_ne_Keccak256Key i h e.symm

theorem key_pre_ne_diff : Keccak256Key server.preHash ≠ Keccak256Key server.diffHash := by
  intro e
  have := congrArg Subtype.val e
  rw [Keccak256Key_val, Keccak256Key_val, preHash_val, diffHash_val] at this
  exact absurd this (by decide)

theorem key_pre_ne_a :
    Keccak256Key server.preHash ≠ Keccak256Key (Keccak256Hash (encodeU64 server.a)) := by
  intro e
  have := congrArg Subtype.val e
  rw [Keccak256Key_val, Keccak256Key_val, preHash_val, hashA_val] at this
  exact absurd this (by decide)

theorem key_pre_ne_b :
    Keccak256Key server.preHash ≠ Keccak256Key (Keccak256Hash (encodeU64 server.b)) := by
  intro e
  have := congrArg Subtype.val e
  rw [Keccak256Key_val, Keccak256Key_val, preHash_val, hashB_val] at this
  exact absurd this (by decide)

theorem key_diff_ne_a :
    Keccak256Key server.diffHash ≠ Keccak256Key (Keccak256Hash (encodeU64 server.a)) := by
  intro e
  have := congrArg Subtype.val e
  rw [Keccak256Key_val, Keccak256Key_val, diffHash_val, hashA_val] at this
  exact absurd this (by decide)

theorem key_diff_ne_b :
    Keccak256Key server.diffHash ≠ Keccak256Key (Keccak256Hash (encodeU64 server.b)) := by
  intro e
  have := congrArg Subtype.val e
  rw [Keccak256Key_val, Keccak256Key_val, diffHash_val, hashB_val] at this
  exact absurd this (by decide)

theorem key_a_ne_b :
    Keccak256Key (Keccak256Hash (encodeU64 server.a)) ≠
      Keccak256Key (Keccak256Hash (encodeU64 server.b)) := by
  intro e
  have := congrArg Subtype.val e
  rw [Keccak256Key_val, Keccak256Key_val, hashA_val, hashB_val] at this
  exact absurd this (by decide)

theorem goString_fetch_state :
    goString "fetch-state " = goString "fetch-state" ++ [0x20] ∧
    (0x20 : Byte) ∉ goString "fetch-state" := by decide!

theorem goString_fetch_diff :
    goString "fetch-diff " = goString "fetch-diff" ++ [0x20] ∧
    (0x20 : Byte) ∉ goString "fetch-diff" ∧
    goString "fetch-diff" ≠ goString "fetch-state" := by decide!

theorem hinter_fetch_state (kv : MemKV) (arg : GoString)
    (ha : hex.DecodeString arg = (server.preHash.val, none)) (hs : (0x20 : Byte) ∉ arg) :
    server.hinter kv (goString "fetch-state" ++ 0x20 :: arg) =
      (kv.Put (Keccak256Key server.preHash) (encodeU64 server.s), none) := by
  unfold server.hinter
  rw [Split_two_tokens _ _ goString_fetch_state.2 hs]
  have hp : ¬ ((hex.DecodeString arg).2 ≠ none ∨ (hex.DecodeString arg).1.length ≠ 32) := by
    rw [ha]
    simp [server.preHash.property]
  have hh : (⟨(hex.DecodeString arg).1, by
      by_contra hne
      exact hp (Or.inr hne)⟩ : Hash) = server.preHash := by
    apply Subtype.ext
    simp only [ha]
  simp only [dif_neg hp, if_true, hh]

theorem hinter_fetch_diff (kv : MemKV) (arg : GoString)
    (ha : hex.DecodeString arg = (server.diffHash.val, none)) (hs : (0x20 : Byte) ∉ arg) :
    server.hinter kv (goString "fetch-diff" ++ 0x20 :: arg) =
      (((kv.Put (Keccak256Key server.diffHash) server.diff).Put
          (Keccak256Key (Keccak256Hash (encodeU64 server.a))) (encodeU64 server.a)).Put
          (Keccak256Key (Keccak256Hash (encodeU64 server.b))) (encodeU64 server.b), none) := by
  unfold server.hinter
  rw [Split_two_tokens _ _ goString_fetch_diff.2.1 hs]
  have hp : ¬ ((hex.DecodeString arg).2 ≠ none ∨ (hex.DecodeString arg).1.length ≠ 32) := by
    rw [ha]
    simp [server.diffHash.property]
  have hh : (⟨(hex.DecodeString arg).1, by
      by_contra hne
      exact hp (Or.inr hne)⟩ : Hash) = server.diffHash := by
    apply Subtype.ext
    simp only [ha]
  simp only [dif_neg hp, if_true, hh, if_neg goString_fetch_diff.2.2]

/-! ## The bootstrap store and sequences of hints -/

theorem Get_eq_ok {kv : MemKV} {k : Hash} {v : List Byte} (h : kv.m k = some v) :
    kv.Get k = .ok v := by
  simp [MemKV.Get, h]

theorem Get_eq_notFound {kv : MemKV} {k : Hash} (h : kv.m k = none) :
    kv.Get k = .error GoError.ErrNotFound := by
  simp [MemKV.Get, h]

theorem LocalIndexKey_ne : LocalIndexKey 0 ≠ LocalIndexKey 1 ∧ LocalIndexKey 0 ≠ LocalIndexKey 2 ∧
    LocalIndexKey 1 ≠ LocalIndexKey 2 := by decide!

theorem bootstrap_m (k : Hash) :
    server.bootstrap.m k =
      if k = LocalIndexKey 2 then some (encodeU64 ((server.s * server.a + server.b) % 2 ^ 64))
      else if k = LocalIndexKey 1 then some server.diffHash.val
      else if k = LocalIndexKey 0 then some server.preHash.val
      else none := rfl

theorem bootstrap_m_Keccak256Key (h : Hash) : server.bootstrap.m (Keccak256Key h) = none := by
  rw [bootstrap_m, if_neg (Keccak256Key_ne_LocalIndexKey 2 h),
    if_neg (Keccak256Key_ne_LocalIndexKey 1 h), if_neg (Keccak256Key_ne_LocalIndexKey 0 h)]

theorem processHints_cons (kv : MemKV) (hint : GoString) (hints : List GoString) :
    server.processHints kv (hint :: hints) =
      server.processHints (server.hinter kv hint).1 hints := rfl

theorem Keccak256_length (data : List Byte) : (Keccak256 data).length = 32 :=
  (Keccak256Hash data).property

theorem diff_eq : server.diff = Keccak256 (encodeU64 3) ++ Keccak256 (encodeU64 4) := by
  unfold server.diff
  rw [List.nil_append]
  rfl

theorem diff_length : server.diff.length = 64 := by
  rw [diff_eq, List.length_append, Keccak256_length, Keccak256_length]

theorem preHash_eq : server.preHash.val = Keccak256 (encodeU64 1000) := by
  unfold server.preHash Keccak256Hash server.s
  rfl

theorem diffHash_eq : server.diffHash.val = Keccak256 server.diff := by
  unfold server.diffHash Keccak256Hash
  rfl

theorem preHash_def : server.preHash = Keccak256Hash (encodeU64 server.s) := by
  unfold server.preHash
  rfl

theorem diffHash_def : server.diffHash = Keccak256Hash server.diff := by
  unfold server.diffHash
  rfl

theorem KeccakConsistent_Put (kv : MemKV) (v : List Byte) (h : KeccakConsistent kv) :
    KeccakConsistent (kv.Put (Keccak256Key (Keccak256Hash v)) v) := by
  intro k w hk hhead
  rw [MemKV.Put_m] at hk
  split_ifs at hk with e
  · cases hk
    exact e
  · exact h k w hk hhead

theorem KeccakConsistent_hinter (kv : MemKV) (hint : GoString) (h : KeccakConsistent kv) :
    KeccakConsistent (server.hinter kv hint).1 := by
  rcases hinter_cases hint with hc | hc | hc
  · rw [hc]
    exact h
  · rw [hc, preHash_def]
    exact KeccakConsistent_Put _ _ h
  · rw [hc, diffHash_def]
    exact KeccakConsistent_Put _ _ (KeccakConsistent_Put _ _ (KeccakConsistent_Put _ _ h))

theorem KeccakConsistent_bootstrap : KeccakConsistent server.bootstrap := by
  intro k v hk hhead
  rw [bootstrap_m] at hk
  split_ifs at hk with e2 e1 e0
  · rw [e2, LocalIndexKey_head] at hhead
    exact absurd hhead (by decide)
  · rw [e1, LocalIndexKey_head] at hhead
    exact absurd hhead (by decide)
  · rw [e0, LocalIndexKey_head] at hhead
    exact absurd hhead (by decide)

theorem KeccakConsistent_processHints (hints : List GoString) :
    ∀ kv : MemKV, KeccakConsistent kv → KeccakConsistent (server.processHints kv hints) := by
  induction hints with
  | nil => exact fun _ h => h
  | cons hint rest ih =>
    intro kv h
    rw [processHints_cons]
    exact ih _ (KeccakConsistent_hinter kv hint h)

theorem hinter_m_of_not_inserted (kv : MemKV) (hint : GoString) (k : Hash)
    (h : ¬ InsertedBy hint k) : (server.hinter kv hint).1.m k = kv.m k := by
  unfold InsertedBy at h
  rcases hinter_cases hint with hc | hc | hc
  · rw [hc]
  · rw [hc] at h ⊢
    simp only [MemKV.Put_m] at h ⊢
    split_ifs at h ⊢ with e
    · simp at h
    · rfl
  · rw [hc] at h ⊢
    simp only [MemKV.Put_m] at h ⊢
    split_ifs at h ⊢ with eb ea ed
    · simp at h
    · simp at h
    · simp at h
    · rfl

theorem processHints_m_of_not_inserted (hints : List GoString) (k : Hash)
    (h : ∀ hint ∈ hints, ¬ InsertedBy hint k) :
    ∀ kv : MemKV, (server.processHints kv hints).m k = kv.m k := by
  induction hints with
  | nil => exact fun _ => rfl
  | cons hint rest ih =>
    intro kv
    rw [processHints_cons,
      ih (fun x hx => h x (List.mem_cons_of_mem _ hx)) (server.hinter kv hint).1,
      hinter_m_of_not_inserted kv hint k (h hint (List.mem_cons_self _ _))]

theorem hinter_error (kv : MemKV) (hint : GoString) : (server.hinter kv hint).2 = none := by
  rcases hinter_cases hint with hc | hc | hc <;> rw [hc]

theorem hinter_unrecognised (verb arg : GoString) (kv : MemKV) (hu : Unrecognised verb arg) :
    server.hinter kv (verb ++ 0x20 :: arg) = (kv, none) := by
  unfold server.hinter
  split
  · rename_i verb1 arg1 heq
    by_cases hv : (0x20 : Byte) ∈ verb
    · exact absurd (by rw [heq]; rfl) (Split_length_of_mem_verb verb arg hv)
    · rw [Split_append, Split_of_not_mem _ _ hv] at heq
      have hsplit : strings.Split 0x20 arg = [arg1] ∧ verb = verb1 := by
        cases hs : strings.Split 0x20 arg with
        | nil => exact absurd hs (Split_ne_nil _ _)
        | cons p ps =>
          rw [hs] at heq
          simp only [List.singleton_append, List.cons.injEq] at heq
          obtain ⟨e1, e2, e3⟩ := heq
          subst e1 e2 e3
          exact ⟨rfl, rfl⟩
      obtain ⟨hs, rfl⟩ := hsplit
      have harg : (0x20 : Byte) ∈ arg ∨ arg = arg1 := by
        by_cases hm : (0x20 : Byte) ∈ arg
        · exact Or.inl hm
        · rw [Split_of_not_mem _ _ hm] at hs
          exact Or.inr (by simpa using hs)
      rcases harg with hm | rfl
      · have := Split_length_of_mem _ _ hm
        rw [hs] at this
        simp at this
      · dsimp only
        split_ifs with h1 h2 h3 h4 h5
        · rfl
        · exfalso
          rcases hu with hu | hu | hu
          · exact hu.1 h2
          · exact hu.2 (congrArg Subtype.val h3)
          · rw [hu.1] at h2
            exact goString_fetch_diff.2.2 h2
        · rfl
        · exfalso
          rcases hu with hu | hu | hu
          · exact hu.2 h4
          · exact h2 hu.1
          · exact hu.2 (congrArg Subtype.val h5)
        · rfl
        · rfl
  · rfl

/-! ## The loops -/

theorem routeHints_spec {σ : Type} (step : σ → σ × Option GoError) (e : GoError) :
    ∀ (n fuel : Nat) (st stn st1 : σ), afterSuccesses step n st = some stn →
      step stn = (st1, some e) → n < fuel →
      routeHints step fuel st =
        (st1, if e = GoError.EOF ∨ errors.Is e GoError.ErrClosed = true then LoopExit.closed
              else LoopExit.sent e) := by
  intro n
  induction n with
  | zero =>
    intro fuel st stn st1 hn he hf
    obtain ⟨f, rfl⟩ : ∃ f, fuel = f + 1 := ⟨fuel - 1, by omega⟩
    simp only [afterSuccesses, Option.some.injEq] at hn
    subst hn
    simp only [routeHints, he, Bool.or_eq_true, decide_eq_true_eq]
    split_ifs <;> rfl
  | succ n ih =>
    intro fuel st stn st1 hn he hf
    obtain ⟨f, rfl⟩ : ∃ f, fuel = f + 1 := ⟨fuel - 1, by omega⟩
    rw [afterSuccesses] at hn
    rw [routeHints]
    rcases hs : step st with ⟨st2, _ | err⟩
    · rw [hs] at hn
      exact ih f st2 stn st1 hn he (by omega)
    · rw [hs] at hn
      cases hn

theorem handlePreimageRequests_eq {σ : Type} (step : σ → σ × Option GoError) :
    ∀ (fuel : Nat) (st : σ), handlePreimageRequests step fuel st = routeHints step fuel st := by
  intro fuel
  induction fuel with
  | zero => exact fun _ => rfl
  | succ f ih =>
    intro st
    rw [handlePreimageRequests, routeHints]
    rcases step st with ⟨st2, _ | err⟩
    · exact ih st2
    · rfl

/-! ## The values derived by the handler -/

theorem DerivedValues_bootstrap : DerivedValues server.bootstrap := by
  intro k v hk
  refine ⟨?_, ?_, ?_, ?_⟩ <;>
  · intro e
    rw [e, bootstrap_m_Keccak256Key] at hk
    cases hk

theorem DerivedValues_hinter (kv : MemKV) (hint : GoString) (inv : DerivedValues kv) :
    DerivedValues (server.hinter kv hint).1 := by
  have n1 := key_pre_ne_diff
  have n2 := key_pre_ne_a
  have n3 := key_pre_ne_b
  have n4 := key_diff_ne_a
  have n5 := key_diff_ne_b
  have n6 := key_a_ne_b
  intro k v hk
  rcases hinter_cases hint with hc | hc | hc
  · rw [hc] at hk
    exact inv k v hk
  · rw [hc] at hk
    simp only [MemKV.Put_m] at hk
    split_ifs at hk with e
    · cases hk
      subst e
      exact ⟨fun _ => rfl, fun e => absurd e n1, fun e => absurd e n2, fun e => absurd e n3⟩
    · exact inv k v hk
  · rw [hc] at hk
    simp only [MemKV.Put_m] at hk
    split_ifs at hk with eb ea ed
    · cases hk
      subst eb
      exact ⟨fun e => absurd e.symm n3, fun e => absurd e.symm n5, fun e => absurd e.symm n6,
        fun _ => rfl⟩
    · cases hk
      subst ea
      exact ⟨fun e => absurd e.symm n2, fun e => absurd e.symm n4, fun _ => rfl,
        fun e => absurd e n6⟩
    · cases hk
      subst ed
      exact ⟨fun e => absurd e.symm n1, fun _ => rfl, fun e => absurd e n4, fun e => absurd e n5⟩
    · exact inv k v hk

theorem DerivedValues_processHints (hints : List GoString) :
    ∀ kv : MemKV, DerivedValues kv → DerivedValues (server.processHints kv hints) := by
  induction hints with
  | nil => exact fun _ h => h
  | cons hint rest ih =>
    intro kv h
    rw [processHints_cons]
    exact ih _ (DerivedValues_hinter kv hint h)

/-! ## The two hints of the scenario -/

theorem processHints_single (kv : MemKV) (hint : GoString) :
    server.processHints kv [hint] = (server.hinter kv hint).1 := rfl

theorem fetch_state_store (kv : MemKV) :
    server.hinter kv (goString "fetch-state " ++ hex.EncodeToString server.preHash.val) =
      (kv.Put (Keccak256Key server.preHash) (encodeU64 server.s), none) := by
  rw [goString_fetch_state.1, List.append_assoc, List.singleton_append,
    hinter_fetch_state _ _ (DecodeString_EncodeToString _)
      (not_space_of_hex _ (EncodeToString_hex _))]

theorem fetch_diff_store (kv : MemKV) :
    server.hinter kv (goString "fetch-diff " ++ hex.EncodeToString server.diffHash.val) =
      (((kv.Put (Keccak256Key server.diffHash) server.diff).Put
          (Keccak256Key (Keccak256Hash (encodeU64 server.a))) (encodeU64 server.a)).Put
          (Keccak256Key (Keccak256Hash (encodeU64 server.b))) (encodeU64 server.b), none) := by
  rw [goString_fetch_diff.1, List.append_assoc, List.singleton_append,
    hinter_fetch_diff _ _ (DecodeString_EncodeToString _)
      (not_space_of_hex _ (EncodeToString_hex _))]

theorem fetch_diff_store_m (kv : MemKV) :
    (server.hinter kv (goString "fetch-diff " ++ hex.EncodeToString server.diffHash.val)).1.m
      (Keccak256Key server.diffHash) = some server.diff := by
  rw [fetch_diff_store, MemKV.Put_m_ne _ _ key_diff_ne_b, MemKV.Put_m_ne _ _ key_diff_ne_a,
    MemKV.Put_m_self]

theorem fetch_state_not_inserted_diff :
    ¬ InsertedBy (goString "fetch-state " ++ hex.EncodeToString server.preHash.val)
      (Keccak256Key server.diffHash) := by
  unfold InsertedBy
  rw [fetch_state_store, MemKV.Put_m_ne _ _ (Ne.symm key_pre_ne_diff)]
  simp [NewMemKV]

/-! ## The claims of the specification -/

/-- C1: a malformed hint (splitting it on the space does not give exactly two
tokens, or the second token is not valid hex, or it decodes to a byte string
whose length is not 32) leaves every store as it was, and the handler returns
no error. -/
theorem C1_malformed_hint_ignored (hint : GoString) (kv : MemKV) (h : Malformed hint) :
    server.hinter kv hint = (kv, none) := by
  unfold server.hinter
  split
  · rename_i verb arg heq
    have hok : (hex.DecodeString arg).2 ≠ none ∨ (hex.DecodeString arg).1.length ≠ 32 := by
      unfold Malformed at h
      rw [heq] at h
      rcases h with h | h | h
      · exact absurd rfl h
      · left
        intro hc
        exact h ((DecodeString_ok_iff arg).mp hc)
      · right
        exact h
    dsimp only
    rw [dif_pos hok]
  · rfl

/-- The hint `fetch-state 12zz` is malformed (its second token is not hex) and
the handler ignores it on the bootstrap store. -/
theorem C1_witness :
    Malformed (goString "fetch-state 12zz") ∧
    server.hinter server.bootstrap (goString "fetch-state 12zz") = (server.bootstrap, none) :=
  ⟨by decide!, C1_malformed_hint_ignored _ _ (by decide!)⟩

/-- C2: in every store reached from the bootstrap store by handling a finite
sequence of hints, an entry whose key is keccak-typed (first byte `0x02`) holds a
value `v` whose key is `Keccak256Key(keccak256(v))`: the bytes of the key after
the type byte are those of the hash of the value. -/
theorem C2_keccak_keys_consistent (hints : List GoString) (k : Hash) (v : List Byte)
    (hk : (server.processHints server.bootstrap hints).m k = some v)
    (hty : k.val.head? = some 2) :
    k = Keccak256Key (Keccak256Hash v) ∧ k.val.drop 1 = (Keccak256 v).drop 1 := by
  have h := KeccakConsistent_processHints hints _ KeccakConsistent_bootstrap k v hk hty
  refine ⟨h, ?_⟩
  have hv := congrArg Subtype.val h
  rw [Keccak256Key_val] at hv
  rw [hv]
  have hl : (Keccak256Hash v).val = Keccak256 v := rfl
  rw [hl]
  cases Keccak256 v with
  | nil => rfl
  | cons x xs => rfl

/-- After the hint `fetch-diff <hex(diffHash)>` the keccak-typed key of
`diffHash` holds `diff`, and it is the key of the hash of `diff`. -/
theorem C2_witness :
    Keccak256Key server.diffHash = Keccak256Key (Keccak256Hash server.diff) ∧
    (Keccak256Key server.diffHash).val.drop 1 = (Keccak256 server.diff).drop 1 :=
  C2_keccak_keys_consistent
    [goString "fetch-diff " ++ hex.EncodeToString server.diffHash.val]
    (Keccak256Key server.diffHash) server.diff
    (by rw [processHints_single]; exact fetch_diff_store_m _) (Keccak256Key_head _)

/-- C3: with `diff = keccak256(encodeU64(3)) || keccak256(encodeU64(4))` and
`diffHash = keccak256(diff)`, `getPreimage(Keccak256Key(diffHash))` fails with
`ErrNotFound` on the bootstrap store, and returns the 64 bytes of `diff` on the
store obtained by handling the hint `fetch-diff <hex(diffHash)>`. -/
theorem C3_fetch_diff_ordering :
    server.diff = Keccak256 (encodeU64 3) ++ Keccak256 (encodeU64 4) ∧
    server.diffHash.val = Keccak256 server.diff ∧
    server.diff.length = 64 ∧
    server.getPreimage server.bootstrap (Keccak256Key server.diffHash) =
      .error GoError.ErrNotFound ∧
    server.getPreimage
        (server.hinter server.bootstrap
          (goString "fetch-diff " ++ hex.EncodeToString server.diffHash.val)).1
        (Keccak256Key server.diffHash) = .ok server.diff :=
  ⟨diff_eq, diffHash_eq, diff_length, Get_eq_notFound (bootstrap_m_Keccak256Key _),
    Get_eq_ok (fetch_diff_store_m _)⟩

/-- C4: the scenario with `s = 1000`, `a = 3`, `b = 4`. On the bootstrap store
`getPreimage(LocalIndexKey(2))` returns `encodeU64(3004)`, the big-endian
encoding of `1000*3+4`, and `getPreimage(LocalIndexKey(0))` returns the 32 bytes
`keccak256(encodeU64(1000))`; after the hint
`fetch-state <hex(keccak256(encodeU64(1000)))>`,
`getPreimage(Keccak256Key(preHash))` returns `encodeU64(1000)`. -/
theorem C4_end_to_end :
    (server.s = 1000 ∧ server.a = 3 ∧ server.b = 4) ∧
    (server.s * server.a + server.b) % 2 ^ 64 = 3004 ∧
    encodeU64 3004 = [0, 0, 0, 0, 0, 0, 0x0b, 0xbc] ∧
    server.getPreimage server.bootstrap (LocalIndexKey 2) = .ok (encodeU64 3004) ∧
    server.getPreimage server.bootstrap (LocalIndexKey 0) = .ok (Keccak256 (encodeU64 1000)) ∧
    (Keccak256 (encodeU64 1000)).length = 32 ∧
    server.preHash.val = Keccak256 (encodeU64 1000) ∧
    server.getPreimage
        (server.hinter server.bootstrap
          (goString "fetch-state " ++ hex.EncodeToString (Keccak256 (encodeU64 1000)))).1
        (Keccak256Key server.preHash) = .ok (encodeU64 1000) := by
  refine ⟨⟨rfl, rfl, rfl⟩, by decide, by decide!, ?_, ?_, Keccak256_length _, preHash_eq, ?_⟩
  · apply Get_eq_ok
    rw [bootstrap_m, if_pos rfl]
    rfl
  · apply Get_eq_ok
    rw [bootstrap_m, if_neg LocalIndexKey_ne.2.1, if_neg LocalIndexKey_ne.1, if_pos rfl,
      preHash_eq]
  · rw [← preHash_eq, fetch_state_store]
    apply Get_eq_ok
    rw [MemKV.Put_m_self]
    rfl

/-- C5: the hint handler is idempotent: handling a hint twice from a store
gives the same store (same keys, same values) and the same result as handling
it once. -/
theorem C5_hinter_idempotent (hint : GoString) (kv : MemKV) :
    server.hinter (server.hinter kv hint).1 hint = server.hinter kv hint := by
  rcases hinter_cases hint with h | h | h
  · rw [h, h]
  · rw [h, h]
    congr 1
    apply MemKV.ext_m
    intro k
    simp only [MemKV.Put_m]
    split_ifs <;> rfl
  · rw [h, h]
    congr 1
    apply MemKV.ext_m
    intro k
    simp only [MemKV.Put_m]
    split_ifs <;> rfl

/-- C6: the store grows monotonically: a key present in a store reached from
the bootstrap store by handling hints is still present after a further hint,
with the same value. -/
theorem C6_store_monotone (hints : List GoString) (hint : GoString) (k : Hash) (v : List Byte)
    (hk : (server.processHints server.bootstrap hints).m k = some v) :
    (server.hinter (server.processHints server.bootstrap hints) hint).1.m k = some v := by
  have inv := DerivedValues_processHints hints _ DerivedValues_bootstrap k v hk
  rcases hinter_cases hint with hc | hc | hc
  · rw [hc]
    exact hk
  · rw [hc]
    simp only [MemKV.Put_m]
    split_ifs with e
    · rw [inv.1 e]
    · exact hk
  · rw [hc]
    simp only [MemKV.Put_m]
    split_ifs with eb ea ed
    · rw [inv.2.2.2 eb]
    · rw [inv.2.2.1 ea]
    · rw [inv.2.1 ed]
    · exact hk

/-- The entry inserted by the hint `fetch-state <hex(preHash)>` is unchanged
by the hint `fetch-diff <hex(diffHash)>`. -/
theorem C6_witness :
    (server.hinter
        (server.processHints server.bootstrap
          [goString "fetch-state " ++ hex.EncodeToString server.preHash.val])
        (goString "fetch-diff " ++ hex.EncodeToString server.diffHash.val)).1.m
      (Keccak256Key server.preHash) = some (encodeU64 server.s) :=
  C6_store_monotone [goString "fetch-state " ++ hex.EncodeToString server.preHash.val]
    (goString "fetch-diff " ++ hex.EncodeToString server.diffHash.val)
    (Keccak256Key server.preHash) (encodeU64 server.s)
    (by rw [processHints_single, fetch_state_store, MemKV.Put_m_self])

/-- C7: for a key that is none of the three bootstrap keys and that no handled
hint inserts, `getPreimage` fails with `ErrNotFound` on the store reached from
the bootstrap store by handling the hints. -/
theorem C7_unknown_key_not_found (hints : List GoString) (key : Hash)
    (h0 : key ≠ LocalIndexKey 0) (h1 : key ≠ LocalIndexKey 1) (h2 : key ≠ LocalIndexKey 2)
    (hins : ∀ hint ∈ hints, ¬ InsertedBy hint key) :
    server.getPreimage (server.processHints server.bootstrap hints) key =
      .error GoError.ErrNotFound := by
  apply Get_eq_notFound
  rw [processHints_m_of_not_inserted hints key hins, bootstrap_m, if_neg h2, if_neg h1, if_neg h0]

/-- After the hint `fetch-state <hex(preHash)>` alone, the key of `diffHash`
is still not found. -/
theorem C7_witness :
    server.getPreimage
        (server.processHints server.bootstrap
          [goString "fetch-state " ++ hex.EncodeToString server.preHash.val])
        (Keccak256Key server.diffHash) = .error GoError.ErrNotFound :=
  C7_unknown_key_not_found [goString "fetch-state " ++ hex.EncodeToString server.preHash.val]
    (Keccak256Key server.diffHash)
    (Keccak256Key_ne_LocalIndexKey 0 _) (Keccak256Key_ne_LocalIndexKey 1 _)
    (Keccak256Key_ne_LocalIndexKey 2 _)
    (by
      intro hint hm
      rw [List.mem_singleton] at hm
      rw [hm]
      exact fetch_state_not_inserted_diff)

/-- C8: a well-formed hint `<verb> <64 hex chars>` that is not recognised (the
verb is neither `fetch-state` nor `fetch-diff`, or the decoded hash is not the
hash known for the verb) leaves every store unchanged and returns no error; and
the handler returns no error for any hint string. -/
theorem C8_unrecognised_hint_ignored (verb arg hint : GoString) (kv : MemKV)
    (_hlen : arg.length = 64) (_hhex : ∀ c ∈ arg, IsHexDigit c) (hu : Unrecognised verb arg) :
    server.hinter kv (verb ++ goString " " ++ arg) = (kv, none) ∧
    (server.hinter kv hint).2 = none := by
  refine ⟨?_, hinter_error kv hint⟩
  rw [goString_space, List.append_assoc, List.singleton_append]
  exact hinter_unrecognised verb arg kv hu

/-- The hint `fetch-state` with the hash of 64 digits `0` is well-formed and
not recognised, since `preHash` is another hash. -/
theorem C8_witness :
    server.hinter server.bootstrap
        (goString "fetch-state" ++ goString " " ++ List.replicate 64 0x30) =
      (server.bootstrap, none) ∧
    (server.hinter server.bootstrap (goString "fetch-diff 00")).2 = none :=
  C8_unrecognised_hint_ignored (goString "fetch-state") (List.replicate 64 0x30)
    (goString "fetch-diff 00") server.bootstrap (by decide!) (by decide!)
    (Or.inr (Or.inl ⟨rfl, by rw [preHash_val]; decide!⟩))

/-- C9: hash decoding in hints is case-insensitive: for two strings of 64 hex
digits that differ only in the case of the letters `a`-`f`, the handler gives
the same store and the same `nil` result for `<verb> <first>` and
`<verb> <second>`; and the upper-case hex of `preHash` with the verb
`fetch-state` inserts `Keccak256Key(preHash) -> encodeU64(1000)`. -/
theorem C9_hex_case_insensitive (verb x y : GoString) (kv : MemKV)
    (_hx : x.length = 64) (_hy : y.length = 64)
    (hxd : ∀ c ∈ x, IsHexDigit c) (hyd : ∀ c ∈ y, IsHexDigit c)
    (hxy : SameUpToHexCase x y) :
    server.hinter kv (verb ++ goString " " ++ x) = server.hinter kv (verb ++ goString " " ++ y) ∧
    (server.hinter kv (verb ++ goString " " ++ x)).2 = none ∧
    (server.hinter kv (verb ++ goString " " ++ y)).2 = none ∧
    server.hinter kv
        (goString "fetch-state " ++ strings.ToUpper (hex.EncodeToString server.preHash.val)) =
      (kv.Put (Keccak256Key server.preHash) (encodeU64 1000), none) := by
  refine ⟨?_, hinter_error _ _, hinter_error _ _, ?_⟩
  · rw [goString_space, List.append_assoc, List.append_assoc, List.singleton_append,
      List.singleton_append]
    exact hinter_congr kv verb x y (not_space_of_hex x hxd) (not_space_of_hex y hyd)
      (DecodeString_of_same_case x y hxy)
  · rw [goString_fetch_state.1, List.append_assoc, List.singleton_append]
    have hd : hex.DecodeString (strings.ToUpper (hex.EncodeToString server.preHash.val)) =
        (server.preHash.val, none) := by
      rw [DecodeString_of_same_case _ _ (ToUpper_same_case _), DecodeString_EncodeToString]
    rw [hinter_fetch_state kv _ hd
      (not_space_of_hex _ (ToUpper_hex _ (EncodeToString_hex _)))]
    rfl

/-- The hints `fetch-state aa..a` and `fetch-state AA..A` (64 letters each)
have the same effect on the bootstrap store. -/
theorem C9_witness :
    server.hinter server.bootstrap
        (goString "fetch-state" ++ goString " " ++ List.replicate 64 0x61) =
      server.hinter server.bootstrap
        (goString "fetch-state" ++ goString " " ++ List.replicate 64 0x41) :=
  (C9_hex_case_insensitive (goString "fetch-state") (List.replicate 64 0x61)
    (List.replicate 64 0x41) server.bootstrap (by decide!) (by decide!) (by decide!)
    (by decide!) (by decide!)).1

/-- C10: outcome of the loops of `routeHints` and `handlePreimageRequests`.
When the first `n` steps succeed and the next one returns the error `e`, the
loop (given more than `n` iterations of fuel) stops at that step; it closes
its channel without sending, so that the receiver gets `nil`, when `e` is
`io.EOF` or `errors.Is(e, fs.ErrClosed)`, and it sends exactly `e` otherwise,
in particular for a store miss and for a truncated read. -/
theorem C10_loop_outcome {σ : Type} (step : σ → σ × Option GoError) (n fuel : Nat)
    (st stn st1 : σ) (e : GoError)
    (hn : afterSuccesses step n st = some stn) (he : step stn = (st1, some e))
    (hfuel : n < fuel) :
    (routeHints step fuel st =
      (st1, if e = GoError.EOF ∨ errors.Is e GoError.ErrClosed = true then LoopExit.closed
            else LoopExit.sent e)) ∧
    (handlePreimageRequests step fuel st =
      (st1, if e = GoError.EOF ∨ errors.Is e GoError.ErrClosed = true then LoopExit.closed
            else LoopExit.sent e)) ∧
    ((routeHints step fuel st).2.recv =
      some (if e = GoError.EOF ∨ errors.Is e GoError.ErrClosed = true then none else some e)) ∧
    ((handlePreimageRequests step fuel st).2.recv =
      some (if e = GoError.EOF ∨ errors.Is e GoError.ErrClosed = true then none else some e)) ∧
    (∀ msg : String,
      e = GoError.ErrNotFound ∨ e = GoError.wrap msg GoError.ErrNotFound ∨
      e = GoError.ErrUnexpectedEOF ∨ e = GoError.wrap msg GoError.ErrUnexpectedEOF ∨
      e = GoError.wrap msg GoError.EOF →
      routeHints step fuel st = (st1, LoopExit.sent e) ∧
      handlePreimageRequests step fuel st = (st1, LoopExit.sent e)) ∧
    (∀ msg : String,
      e = GoError.EOF ∨ e = GoError.ErrClosed ∨ e = GoError.wrap msg GoError.ErrClosed →
      routeHints step fuel st = (st1, LoopExit.closed) ∧
      handlePreimageRequests step fuel st = (st1, LoopExit.closed)) := by
  have h1 := routeHints_spec step e n fuel st stn st1 hn he hfuel
  have h2 := handlePreimageRequests_eq step fuel st
  refine ⟨h1, h2.trans h1, ?_, ?_, ?_, ?_⟩
  · rw [h1]
    split_ifs <;> rfl
  · rw [h2, h1]
    split_ifs <;> rfl
  · intro msg hm
    rw [h2, h1]
    rcases hm with rfl | rfl | rfl | rfl | rfl <;> simp [errors.Is]
  · intro msg hm
    rw [h2, h1]
    rcases hm with rfl | rfl | rfl <;> simp [errors.Is]

/-- Two successful requests and then a store miss: both loops stop at the third
step and send the error of the miss. -/
theorem C10_witness :
    routeHints missAfterTwo 3 0 =
      (3, LoopExit.sent (GoError.wrap "failed to serve pre-image request" GoError.ErrNotFound)) ∧
    handlePreimageRequests missAfterTwo 3 0 =
      (3, LoopExit.sent (GoError.wrap "failed to serve pre-image request" GoError.ErrNotFound)) :=
  (C10_loop_outcome missAfterTwo 2 3 0 2 3
    (GoError.wrap "failed to serve pre-image request" GoError.ErrNotFound)
    rfl rfl (by decide)).2.2.2.2.1 "failed to serve pre-image request" (Or.inr (Or.inl rfl))
